import Mathlib

/-!
Verification of the NMEA sentence field accessor and 6-bit ASCII armor
decoder (`parser.go`).  The Go `parser` struct embeds a tokenized
sentence (type tag, a source identifier used in error text, and ordered
fields) together with a sticky first-error latch.  Every getter is
modelled as a function from the accessor state to a pair of the returned
value and the updated state.  Machine integers are modelled as `Int` or
`Nat`; the Go comparisons involved never overflow (indices are compared
against small field counts), so unbounded integers are faithful.
-/

/-- The accessor state.  The embedded tokenized message is modelled from
the spec: it exposes a type tag `typ`, a source identifier `pfx` used
only in error text, and the ordered `fields`.  `err` is the sticky
first-error latch; the Go `error` value is represented by the formatted
message string it carries. -/
structure parser where
  typ : String
  pfx : String
  fields : List String
  err : Option String
  deriving DecidableEq, Repr

/-- The error message format used by `SetErr`
(Go: `fmt.Errorf("nmea: %s invalid %s: %s", p.Prefix(), context, value)`). -/
def errMsg (pfx context value : String) : String :=
  "nmea: " ++ pfx ++ " invalid " ++ context ++ ": " ++ value

/-- `SetErr` assigns an error; it has no effect if one is already latched. -/
def parser.SetErr (p : parser) (context value : String) : parser :=
  if p.err = none then
    { p with err := some (errMsg p.pfx context value) }
  else p

/-- `Err` returns the first error encountered during the parser's usage. -/
def parser.Err (p : parser) : Option String :=
  p.err

/-- `AssertType` makes sure the sentence's type matches the provided one. -/
def parser.AssertType (p : parser) (typExpected : String) : parser :=
  if p.typ ≠ typExpected then p.SetErr "type" p.typ else p

/-- `String` returns the field value at the specified index
(named `StringAt` here to avoid clashing with the `String` type). -/
def parser.StringAt (p : parser) (i : Int) (context : String) : String × parser :=
  if p.err ≠ none then ("", p)
  else if i < 0 ∨ (p.fields.length : Int) ≤ i then
    ("", p.SetErr context "index out of range")
  else (p.fields.getD i.toNat "", p)

/-- `ListString` returns a list of all fields from the given start index. -/
def parser.ListString (p : parser) (frm : Int) (context : String) : List String × parser :=
  if p.err ≠ none then ([], p)
  else if frm < 0 ∨ (p.fields.length : Int) ≤ frm then
    ([], p.SetErr context "index out of range")
  else (p.fields.drop frm.toNat, p)

/-- `EnumString` returns the field value at the specified index; a
non-empty value must be one of the options. -/
def parser.EnumString (p : parser) (i : Int) (context : String) (options : List String) :
    String × parser :=
  let sp := p.StringAt i context
  if sp.2.err ≠ none ∨ sp.1 = "" then ("", sp.2)
  else if options.contains sp.1 then (sp.1, sp.2)
  else ("", sp.2.SetErr context sp.1)

/-- `EnumChars` matches each character of the field against the options,
appending the first matching option per character (Go ranges over the
runes of the field).  The final check `len(strs) != len(s)` compares the
number of matches against the Go byte length of the field, modelled by
`String.utf8ByteSize`. -/
def parser.EnumChars (p : parser) (i : Int) (context : String) (options : List String) :
    List String × parser :=
  let sp := p.StringAt i context
  if sp.2.err ≠ none ∨ sp.1 = "" then ([], sp.2)
  else
    let strs := sp.1.toList.filterMap (fun r => options.find? (fun o => o == String.singleton r))
    if strs.length ≠ sp.1.utf8ByteSize then ([], sp.2.SetErr context sp.1)
    else (strs, sp.2)

/-- Model of Go `strconv.ParseInt(s, 10, 64)`: optional sign, then
decimal digits.  A syntax error yields value 0; a value outside the
signed 64-bit range yields the clamped boundary together with a range
error, exactly as `ParseInt` does. -/
def parseInt64 (s : String) : Int × Option String :=
  match s.toList with
  | [] => (0, some "syntax")
  | c :: rest =>
    let sd : Bool × List Char :=
      if c = '+' then (false, rest)
      else if c = '-' then (true, rest)
      else (false, c :: rest)
    let neg := sd.1
    let ds := sd.2
    if ds.isEmpty then (0, some "syntax")
    else if ds.all Char.isDigit then
      let n : Nat := ds.foldl (fun acc d => acc * 10 + (d.toNat - 48)) 0
      if ¬neg ∧ 2 ^ 63 ≤ n then ((2 : Int) ^ 63 - 1, some "range")
      else if neg ∧ 2 ^ 63 < n then (-(2 : Int) ^ 63, some "range")
      else ((if neg then -(n : Int) else (n : Int)), none)
    else (0, some "syntax")

/-- A Go `float64` result as observed by this code: the finite values are
kept as exact rationals (the claims never depend on IEEE rounding of a
finite value), plus the two infinities and NaN. -/
inductive GoFloat where
  | finite (q : ℚ)
  | inf (neg : Bool)
  | nan
  deriving DecidableEq, Repr

/-- Decimal digit run of a character list: the digits and the rest. -/
def spanDigits (cs : List Char) : List Char × List Char :=
  (cs.takeWhile Char.isDigit, cs.dropWhile Char.isDigit)

/-- Value of a list of decimal digit characters. -/
def decDigitsVal (ds : List Char) : Nat :=
  ds.foldl (fun acc d => acc * 10 + (d.toNat - 48)) 0

/-- Exponent part after the `e`/`E` marker: optional sign then at least
one digit; returns the exponent and the remaining characters. -/
def parseExpSigned (cs : List Char) : Option (Int × List Char) :=
  let st : Bool × List Char :=
    match cs with
    | '+' :: t => (false, t)
    | '-' :: t => (true, t)
    | _ => (false, cs)
  let sr := spanDigits st.2
  if sr.1.isEmpty then none
  else some ((if st.1 then -(decDigitsVal sr.1 : Int) else (decDigitsVal sr.1 : Int)), sr.2)

/-- Optional exponent clause. -/
def parseExp (cs : List Char) : Option (Int × List Char) :=
  match cs with
  | 'e' :: t => parseExpSigned t
  | 'E' :: t => parseExpSigned t
  | _ => some (0, cs)

/-- Model of Go `strconv.ParseFloat(s, 64)` restricted to the decimal
forms this code's claims exercise: optional sign, decimal mantissa with
optional fractional part, optional decimal exponent.  A syntax error
yields value 0; a magnitude at or beyond `2 ^ 1024` overflows to the
correspondingly signed infinity with a range error, as `ParseFloat`
does.  Hex floats, the inf/nan keywords, rounding of finite values and
gradual underflow are outside the model (no claim depends on them). -/
def parseFloat64 (s : String) : GoFloat × Option String :=
  match s.toList with
  | [] => (GoFloat.finite 0, some "syntax")
  | c0 :: rest0 =>
    let sd : Bool × List Char :=
      if c0 = '+' then (false, rest0)
      else if c0 = '-' then (true, rest0)
      else (false, c0 :: rest0)
    let neg := sd.1
    let ip := spanDigits sd.2
    let fp :=
      match ip.2 with
      | '.' :: t => spanDigits t
      | _ => ([], ip.2)
    if ip.1.isEmpty ∧ fp.1.isEmpty then (GoFloat.finite 0, some "syntax")
    else
      match parseExp fp.2 with
      | none => (GoFloat.finite 0, some "syntax")
      | some er =>
        if ¬er.2.isEmpty then (GoFloat.finite 0, some "syntax")
        else
          let m : Nat := decDigitsVal (ip.1 ++ fp.1)
          let eAdj : Int := er.1 - (fp.1.length : Int)
          let cutoff : Nat := ((2 ^ 256) ^ 2) ^ 2
          let overflow : Bool :=
            if 0 ≤ eAdj then decide (cutoff ≤ m * 10 ^ eAdj.toNat)
            else decide (cutoff * 10 ^ (-eAdj).toNat ≤ m)
          if overflow then (GoFloat.inf neg, some "range")
          else
            let mag : ℚ :=
              if 0 ≤ eAdj then ((m : ℚ) * (10 : ℚ) ^ eAdj.toNat)
              else ((m : ℚ) / (10 : ℚ) ^ (-eAdj).toNat)
            (GoFloat.finite (if neg then -mag else mag), none)

/-- `Int64` returns the int64 value at the specified index; empty string
yields 0; the parse result's value is returned even when the parse
fails, in which case the error is latched. -/
def parser.Int64 (p : parser) (i : Int) (context : String) : Int × parser :=
  let sp := p.StringAt i context
  if sp.2.err ≠ none then (0, sp.2)
  else if sp.1 = "" then (0, sp.2)
  else
    let ve := parseInt64 sp.1
    match ve.2 with
    | some _ => (ve.1, sp.2.SetErr context sp.1)
    | none => (ve.1, sp.2)

/-- `Float64` returns the float64 value at the specified index; empty
string yields 0; the parse result's value is returned even when the
parse fails, in which case the error is latched. -/
def parser.Float64 (p : parser) (i : Int) (context : String) : GoFloat × parser :=
  let sp := p.StringAt i context
  if sp.2.err ≠ none then (GoFloat.finite 0, sp.2)
  else if sp.1 = "" then (GoFloat.finite 0, sp.2)
  else
    let ve := parseFloat64 sp.1
    match ve.2 with
    | some _ => (ve.1, sp.2.SetErr context sp.1)
    | none => (ve.1, sp.2)

/-- `Time` getter.  Modelled from the spec: the external `Time` type and
`ParseTime` collaborator live outside this core; they are passed in as
the value type `T`, its zero value `zeroT` (Go's zero struct), and the
parse function returning a value and an optional error. -/
def parser.TimeG {T : Type} (parseTime : String → T × Option String) (zeroT : T)
    (p : parser) (i : Int) (context : String) : T × parser :=
  let sp := p.StringAt i context
  if sp.2.err ≠ none then (zeroT, sp.2)
  else
    let ve := parseTime sp.1
    match ve.2 with
    | some _ => (ve.1, sp.2.SetErr context sp.1)
    | none => (ve.1, sp.2)

/-- `Date` getter.  Modelled from the spec, symmetric to `Time`. -/
def parser.DateG {D : Type} (parseDate : String → D × Option String) (zeroD : D)
    (p : parser) (i : Int) (context : String) : D × parser :=
  let sp := p.StringAt i context
  if sp.2.err ≠ none then (zeroD, sp.2)
  else
    let ve := parseDate sp.1
    match ve.2 with
    | some _ => (ve.1, sp.2.SetErr context sp.1)
    | none => (ve.1, sp.2)

/-- `LatLong` getter.  Modelled from the spec: the external coordinate
parser is a parameter; the two resolved fields are joined with a single
space and the parse error's message is reported as the error value. -/
def parser.LatLongG {F : Type} (parseLatLong : String → F × Option String) (zeroF : F)
    (p : parser) (i j : Int) (context : String) : F × parser :=
  let spa := p.StringAt i context
  let spb := spa.2.StringAt j context
  if spb.2.err ≠ none then (zeroF, spb.2)
  else
    let ve := parseLatLong (spa.1 ++ " " ++ spb.1)
    match ve.2 with
    | some e => (ve.1, spb.2.SetErr context e)
    | none => (ve.1, spb.2)

/-- The armor character mapping (Go: `d := v - 48; if d > 40 { d -= 8 }`). -/
def armorValue (v : Nat) : Nat :=
  let d := v - 48
  if 40 < d then d - 8 else d

/-- The armor range check (Go: `v < 48 || v >= 120` faults). -/
def armorOk (v : Nat) : Bool :=
  decide (48 ≤ v) && decide (v < 120)

/-- The six bits of a mapped value, most significant first
(Go: `for i := 5; i >= 0; i-- { (d >> i) & 1 }`). -/
def sixBitGroup (d : Nat) : List Nat :=
  [d >>> 5 &&& 1, d >>> 4 &&& 1, d >>> 3 &&& 1, d >>> 2 &&& 1, d >>> 1 &&& 1, d >>> 0 &&& 1]

/-- The per-character phase of the decoder: every payload byte must pass
the range check, and each one contributes its six bits in order.  The Go
loop faults on the first bad byte; since the reported error does not
depend on which byte faulted, checking them all first is observably
identical. -/
def armorDecode (codes : List Nat) : Option (List Nat) :=
  if codes.all armorOk then
    some ((codes.map (fun v => sixBitGroup (armorValue v))).flatten)
  else none

/-- `SixBitASCIIArmour` decodes the 6-bit ascii armor used for VDM and
VDO messages.  The payload is the byte sequence of the resolved field;
it is modelled by the character codes of the field, which is observably
identical: every byte of a multi-byte character is at least 0x80 and so
faults the range check exactly as the character code (≥ 0x80 ≥ 120)
does, and on all-ASCII fields bytes and character codes coincide.  Go
truncates by writing into a slice of `numBits` entries; `List.take`
after emitting all groups produces the same sequence. -/
def parser.SixBitASCIIArmour (p : parser) (i : Int) (fillBits : Int) (context : String) :
    Option (List Nat) × parser :=
  if p.err ≠ none then (none, p)
  else if fillBits < 0 ∨ 6 ≤ fillBits then (none, p.SetErr context "fill bits")
  else
    let sp := p.StringAt i "encoded payload"
    let payload := sp.1.toList.map Char.toNat
    let numBits : Int := (payload.length : Int) * 6 - fillBits
    if numBits < 0 then (none, sp.2.SetErr context "num bits")
    else
      match armorDecode payload with
      | none => (none, sp.2.SetErr context "data byte")
      | some bits => (some (bits.take numBits.toNat), sp.2)

/-! ### Shared lemmas and concrete accessor states -/

/-- A 310-digit decimal literal, larger than the float64 range. -/
def bigNines : String := "9999999999999999999999999999999999999999999999999999999999999999999999999999999999999999999999999999999999999999999999999999999999999999999999999999999999999999999999999999999999999999999999999999999999999999999999999999999999999999999999999999999999999999999999999999999999999999999999999999999999999999999999"

/-- An error-free accessor over a representative field list: a
multi-character enum field, a malformed number, an empty field, a
one-character armor payload, an out-of-range integer, the armor
character `W`, and a one-character enum field. -/
def pOk : parser :=
  { typ := "GPRMC", pfx := "GPRMC",
    fields := ["ABA", "12x", "", "0", "99999999999999999999", "W", "A"],
    err := none }

/-- An error-free accessor whose only field is the out-of-range float
literal `bigNines`. -/
def pBig : parser :=
  { typ := "GPRMC", pfx := "GPRMC", fields := [bigNines], err := none }

/-- An accessor with a latched error. -/
def pLatched : parser :=
  { typ := "GPRMC", pfx := "GPRMC", fields := ["1", "2"],
    err := some "nmea: GPRMC invalid type: GPGGA" }

theorem SetErr_of_some (p : parser) (c v : String) (h : p.err ≠ none) :
    p.SetErr c v = p := by
  simp [parser.SetErr, h]

theorem SetErr_of_none (p : parser) (c v : String) (h : p.err = none) :
    p.SetErr c v = { p with err := some (errMsg p.pfx c v) } := by
  simp [parser.SetErr, h]

theorem StringAt_of_some (p : parser) (i : Int) (ctx : String) (h : p.err ≠ none) :
    p.StringAt i ctx = ("", p) := by
  simp [parser.StringAt, h]

theorem StringAt_valid (p : parser) (i : Int) (ctx : String) (h : p.err = none)
    (h0 : 0 ≤ i) (hl : i.toNat < p.fields.length) :
    p.StringAt i ctx = (p.fields.getD i.toNat "", p) := by
  have hc : ¬(i < 0 ∨ (p.fields.length : Int) ≤ i) := by omega
  simp [parser.StringAt, h, hc]

theorem StringAt_oob (p : parser) (i : Int) (ctx : String) (h : p.err = none)
    (hc : i < 0 ∨ (p.fields.length : Int) ≤ i) :
    p.StringAt i ctx = ("", p.SetErr ctx "index out of range") := by
  simp [parser.StringAt, h, hc]

/-- C1: once an error is latched on an accessor, every subsequent getter
call — AssertType, String, ListString, EnumString, EnumChars, Int64,
Float64, Time, Date, LatLong, SixBitASCIIArmour — returns its type's
zero or empty value (empty string, empty list, 0, the zero struct, nil)
and leaves the accessor state, in particular the latched error,
unchanged. -/
theorem claim_C1 {T D F : Type} (parseTime : String → T × Option String) (zeroT : T)
    (parseDate : String → D × Option String) (zeroD : D)
    (parseLatLong : String → F × Option String) (zeroF : F)
    (p : parser) (e : String) (h : p.err = some e)
    (typExpected ctx : String) (i j frm fillBits : Int) (options : List String) :
    p.AssertType typExpected = p ∧
    p.StringAt i ctx = ("", p) ∧
    p.ListString frm ctx = ([], p) ∧
    p.EnumString i ctx options = ("", p) ∧
    p.EnumChars i ctx options = ([], p) ∧
    p.Int64 i ctx = (0, p) ∧
    p.Float64 i ctx = (GoFloat.finite 0, p) ∧
    parser.TimeG parseTime zeroT p i ctx = (zeroT, p) ∧
    parser.DateG parseDate zeroD p i ctx = (zeroD, p) ∧
    parser.LatLongG parseLatLong zeroF p i j ctx = (zeroF, p) ∧
    p.SixBitASCIIArmour i fillBits ctx = (none, p) := by
  refine ⟨?_, ?_, ?_, ?_, ?_, ?_, ?_, ?_, ?_, ?_, ?_⟩
  · simp [parser.AssertType, parser.SetErr, h]
  · simp [parser.StringAt, h]
  · simp [parser.ListString, h]
  · simp [parser.EnumString, parser.StringAt, h]
  · simp [parser.EnumChars, parser.StringAt, h]
  · simp [parser.Int64, parser.StringAt, h]
  · simp [parser.Float64, parser.StringAt, h]
  · simp [parser.TimeG, parser.StringAt, h]
  · simp [parser.DateG, parser.StringAt, h]
  · simp [parser.LatLongG, parser.StringAt, h]
  · simp [parser.SixBitASCIIArmour, h]

/-- C1 witness: the latched accessor `pLatched` at concrete getter
arguments. -/
theorem claim_C1_witness :
    pLatched.AssertType "GPRMC" = pLatched ∧
    pLatched.StringAt 0 "c" = ("", pLatched) ∧
    pLatched.ListString 1 "c" = ([], pLatched) ∧
    pLatched.EnumString 0 "c" ["1"] = ("", pLatched) ∧
    pLatched.EnumChars 0 "c" ["1"] = ([], pLatched) ∧
    pLatched.Int64 0 "c" = (0, pLatched) ∧
    pLatched.Float64 0 "c" = (GoFloat.finite 0, pLatched) ∧
    parser.TimeG (fun _ => ((0 : Nat), none)) 0 pLatched 0 "c" = (0, pLatched) ∧
    parser.DateG (fun _ => ((0 : Nat), none)) 0 pLatched 0 "c" = (0, pLatched) ∧
    parser.LatLongG (fun _ => ((0 : Nat), none)) 0 pLatched 0 1 "c" = (0, pLatched) ∧
    pLatched.SixBitASCIIArmour 0 0 "c" = (none, pLatched) :=
  claim_C1 (fun _ => ((0 : Nat), none)) 0 (fun _ => ((0 : Nat), none)) 0
    (fun _ => ((0 : Nat), none)) 0 pLatched "nmea: GPRMC invalid type: GPGGA" rfl
    "GPRMC" "c" 0 1 1 0 ["1"]

/-- C2: `SetErr` assigns an error only when none is latched; with an
error already set, any later `SetErr` call, whatever its context and
value, returns the state completely unchanged — the first error is never
overwritten or cleared. -/
theorem claim_C2 (p : parser) (e : String) (h : p.err = some e) (c v : String) :
    p.SetErr c v = p := by
  simp [parser.SetErr, h]

/-- C2 witness: a second `SetErr` on the latched accessor is the
identity. -/
theorem claim_C2_witness : pLatched.SetErr "mode" "Z" = pLatched :=
  claim_C2 pLatched "nmea: GPRMC invalid type: GPGGA" rfl "mode" "Z"

/-- C3 counterexample: the claim asserts every code in 88–119 maps to
`code - 48 - 8`, i.e. code 88 to 32; the code's condition `d > 40`
leaves code 88 at value 40 (the subtraction only fires from code 89 on),
as the decoder output for the one-character payload `X` (code 88)
confirms: bits 101000, the value 40, not 100000. -/
theorem claim_C3_cex :
    armorValue 88 = 40 ∧ 88 - 48 - 8 = 32 ∧ armorValue 88 ≠ 32 ∧
    (parser.SixBitASCIIArmour
        { typ := "T", pfx := "P", fields := ["X"], err := none } 0 0 "pay").1 =
      some [1, 0, 1, 0, 0, 0] := by
  decide

/-- C3 amended: for every input code in 48–88 inclusive the mapped 6-bit
value is `code - 48` (values 0–40); for every code in 89–119 inclusive
it is `code - 48 - 8` (values 33–63). -/
theorem claim_C3 (code : Nat) :
    (48 ≤ code → code ≤ 88 → armorValue code = code - 48) ∧
    (89 ≤ code → code ≤ 119 → armorValue code = code - 48 - 8) := by
  unfold armorValue
  constructor <;> intro h1 h2 <;> simp only [] <;> split <;> omega

/-- C3 witness: the amended mapping at the boundary codes 88 and 119. -/
theorem claim_C3_witness :
    armorValue 88 = 88 - 48 ∧ armorValue 119 = 119 - 48 - 8 :=
  ⟨(claim_C3 88).1 (by decide) (by decide),
   (claim_C3 119).2 (by decide) (by decide)⟩

/-- C6: on an error-free accessor, `String` at a valid index returns the
stored field verbatim (the empty string included) without touching the
state; `String` and `ListString` at a negative or too-large index latch
the index error and return an empty result; `ListString` at a valid
index returns the fields from that position to the end, in order. -/
theorem claim_C6 (p : parser) (i : Int) (ctx : String) (h : p.err = none) :
    (0 ≤ i → i.toNat < p.fields.length →
      p.StringAt i ctx = (p.fields.getD i.toNat "", p)) ∧
    ((i < 0 ∨ (p.fields.length : Int) ≤ i) →
      p.StringAt i ctx = ("", p.SetErr ctx "index out of range") ∧
      (p.StringAt i ctx).2.err = some (errMsg p.pfx ctx "index out of range")) ∧
    (0 ≤ i → i.toNat < p.fields.length →
      p.ListString i ctx = (p.fields.drop i.toNat, p)) ∧
    ((i < 0 ∨ (p.fields.length : Int) ≤ i) →
      p.ListString i ctx = ([], p.SetErr ctx "index out of range") ∧
      (p.ListString i ctx).2.err = some (errMsg p.pfx ctx "index out of range")) := by
  refine ⟨fun h0 hl => StringAt_valid p i ctx h h0 hl, fun hc => ?_, fun h0 hl => ?_,
    fun hc => ?_⟩
  · rw [StringAt_oob p i ctx h hc]
    exact ⟨rfl, by rw [SetErr_of_none p ctx _ h]⟩
  · have hcn : ¬(i < 0 ∨ (p.fields.length : Int) ≤ i) := by omega
    simp [parser.ListString, h, hcn]
  · rw [show p.ListString i ctx = ([], p.SetErr ctx "index out of range") by
      simp [parser.ListString, h, hc]]
    exact ⟨rfl, by rw [SetErr_of_none p ctx _ h]⟩

/-- C6 witness: `pOk` at a valid index, a valid list start, an index past
the end, and a negative index. -/
theorem claim_C6_witness :
    pOk.StringAt 0 "c" = ("ABA", pOk) ∧
    pOk.ListString 5 "c" = (["W", "A"], pOk) ∧
    pOk.StringAt 99 "c" = ("", pOk.SetErr "c" "index out of range") ∧
    (pOk.ListString (-1) "c").2.err = some (errMsg "GPRMC" "c" "index out of range") := by
  refine ⟨?_, ?_, ?_, ?_⟩
  · exact (claim_C6 pOk 0 "c" rfl).1 (by decide) (by decide)
  · exact (claim_C6 pOk 5 "c" rfl).2.2.1 (by decide) (by decide)
  · exact ((claim_C6 pOk 99 "c" rfl).2.1 (by decide)).1
  · exact ((claim_C6 pOk (-1) "c" rfl).2.2.2 (by decide)).2

theorem SixBit_eval (p : parser) (i fillBits : Int) (ctx : String) (h : p.err = none)
    (h0 : 0 ≤ i) (hl : i.toNat < p.fields.length) (hf0 : 0 ≤ fillBits) (hf6 : fillBits < 6) :
    p.SixBitASCIIArmour i fillBits ctx =
      (if (((p.fields.getD i.toNat "").toList.map Char.toNat).length : Int) * 6 - fillBits < 0
        then (none, p.SetErr ctx "num bits")
        else
          match armorDecode ((p.fields.getD i.toNat "").toList.map Char.toNat) with
          | none => (none, p.SetErr ctx "data byte")
          | some bits =>
            (some (bits.take ((((p.fields.getD i.toNat "").toList.map Char.toNat).length : Int)
              * 6 - fillBits).toNat), p)) := by
  have hs := StringAt_valid p i "encoded payload" h h0 hl
  have hfc : ¬(fillBits < 0 ∨ 6 ≤ fillBits) := by omega
  rw [parser.SixBitASCIIArmour, if_neg (by simp [h]), if_neg hfc, hs]

/-- C7: on an error-free accessor, `SixBitASCIIArmour` with fill bits
below 0 or at least 6 latches the fill-bits error and returns no data;
with valid fill bits but a computed total bit count below zero (an empty
payload field and a positive fill-bit count) it latches the bit-count
error and returns no data.  Concretely on `pOk`: one valid character
with 2 fill bits yields exactly 4 bits, while fill bits 6 or -1 yield no
output. -/
theorem claim_C7 (p : parser) (i fillBits : Int) (ctx : String) (h : p.err = none) :
    ((fillBits < 0 ∨ 6 ≤ fillBits) →
      p.SixBitASCIIArmour i fillBits ctx = (none, p.SetErr ctx "fill bits") ∧
      (p.SixBitASCIIArmour i fillBits ctx).2.err = some (errMsg p.pfx ctx "fill bits")) ∧
    (0 ≤ fillBits → fillBits < 6 → 0 < fillBits → 0 ≤ i → i.toNat < p.fields.length →
      p.fields.getD i.toNat "" = "" →
      p.SixBitASCIIArmour i fillBits ctx = (none, p.SetErr ctx "num bits") ∧
      (p.SixBitASCIIArmour i fillBits ctx).2.err = some (errMsg p.pfx ctx "num bits")) ∧
    (pOk.SixBitASCIIArmour 3 2 "c").1 = some [0, 0, 0, 0] ∧
    ((pOk.SixBitASCIIArmour 3 2 "c").1.getD []).length = 4 ∧
    pOk.SixBitASCIIArmour 3 6 "c" = (none, pOk.SetErr "c" "fill bits") ∧
    pOk.SixBitASCIIArmour 3 (-1) "c" = (none, pOk.SetErr "c" "fill bits") := by
  refine ⟨fun hf => ?_, fun hf0 hf6 hfpos h0 hl hempty => ?_, by decide, by decide,
    by decide, by decide⟩
  · rw [show p.SixBitASCIIArmour i fillBits ctx = (none, p.SetErr ctx "fill bits") by
      rw [parser.SixBitASCIIArmour, if_neg (by simp [h]), if_pos hf]]
    exact ⟨rfl, by rw [SetErr_of_none p ctx _ h]⟩
  · rw [show p.SixBitASCIIArmour i fillBits ctx = (none, p.SetErr ctx "num bits") by
      rw [SixBit_eval p i fillBits ctx h h0 hl hf0 hf6, hempty,
        if_pos (by simp; omega)]]
    exact ⟨rfl, by rw [SetErr_of_none p ctx _ h]⟩

/-- C7 witness: the general branches instantiated on `pOk` (fill bits 7,
and the empty field at index 2 with fill bits 3). -/
theorem claim_C7_witness :
    pOk.SixBitASCIIArmour 0 7 "c" = (none, pOk.SetErr "c" "fill bits") ∧
    pOk.SixBitASCIIArmour 2 3 "c" = (none, pOk.SetErr "c" "num bits") :=
  ⟨((claim_C7 pOk 0 7 "c" rfl).1 (by decide)).1,
   ((claim_C7 pOk 2 3 "c" rfl).2.1 (by decide) (by decide) (by decide) (by decide)
      (by decide) (by decide)).1⟩

/-- C8: on an error-free accessor with valid fill bits, a payload field
containing any character whose code lies outside 48–119 makes
`SixBitASCIIArmour` latch the data-byte error and return no output at
all, even when other characters are valid — nothing partial is
returned. -/
theorem claim_C8 (p : parser) (i fillBits : Int) (ctx : String) (h : p.err = none)
    (h0 : 0 ≤ i) (hl : i.toNat < p.fields.length)
    (hf0 : 0 ≤ fillBits) (hf6 : fillBits < 6)
    (c : Char) (hc : c ∈ (p.fields.getD i.toNat "").toList)
    (hbad : c.toNat < 48 ∨ 120 ≤ c.toNat) :
    p.SixBitASCIIArmour i fillBits ctx = (none, p.SetErr ctx "data byte") ∧
    (p.SixBitASCIIArmour i fillBits ctx).2.err = some (errMsg p.pfx ctx "data byte") := by
  have hlen : 1 ≤ (p.fields.getD i.toNat "").toList.length :=
    List.length_pos.mpr (List.ne_nil_of_mem hc)
  have hnb : ¬((((p.fields.getD i.toNat "").toList.map Char.toNat).length : Int) * 6
      - fillBits < 0) := by
    rw [List.length_map]; omega
  have hall : ((p.fields.getD i.toNat "").toList.map Char.toNat).all armorOk = false := by
    rw [List.all_eq_false]
    exact ⟨c.toNat, List.mem_map_of_mem _ hc, by simp [armorOk]; omega⟩
  have hdec : armorDecode ((p.fields.getD i.toNat "").toList.map Char.toNat) = none := by
    rw [armorDecode, hall]
    exact if_neg (by simp)
  rw [show p.SixBitASCIIArmour i fillBits ctx = (none, p.SetErr ctx "data byte") by
    rw [SixBit_eval p i fillBits ctx h h0 hl hf0 hf6, if_neg hnb, hdec]]
  exact ⟨rfl, by rw [SetErr_of_none p ctx _ h]⟩

/-- C8 witness: the field `12x` of `pOk`; the characters `1` and `2` are
valid armor input but `x` (code 120) is not, and the whole result is
discarded. -/
theorem claim_C8_witness :
    pOk.SixBitASCIIArmour 1 0 "c" = (none, pOk.SetErr "c" "data byte") :=
  (claim_C8 pOk 1 0 "c" rfl (by decide) (by decide) (by decide) (by decide) 'x'
    (by decide) (by decide)).1

/-- C9: on an error-free accessor at a valid index, `Int64` and
`Float64` return 0 with no latched error when the field is the empty
string; when the field is non-empty and its parse fails (such as `12x`),
they latch a format error whose reported value is the malformed field
string. -/
theorem claim_C9 (p : parser) (i : Int) (ctx : String) (h : p.err = none)
    (h0 : 0 ≤ i) (hl : i.toNat < p.fields.length) :
    (p.fields.getD i.toNat "" = "" →
      p.Int64 i ctx = (0, p) ∧ p.Float64 i ctx = (GoFloat.finite 0, p)) ∧
    (p.fields.getD i.toNat "" ≠ "" →
      ∀ e, (parseInt64 (p.fields.getD i.toNat "")).2 = some e →
      p.Int64 i ctx = ((parseInt64 (p.fields.getD i.toNat "")).1,
        p.SetErr ctx (p.fields.getD i.toNat "")) ∧
      (p.Int64 i ctx).2.err = some (errMsg p.pfx ctx (p.fields.getD i.toNat ""))) ∧
    (p.fields.getD i.toNat "" ≠ "" →
      ∀ e, (parseFloat64 (p.fields.getD i.toNat "")).2 = some e →
      p.Float64 i ctx = ((parseFloat64 (p.fields.getD i.toNat "")).1,
        p.SetErr ctx (p.fields.getD i.toNat "")) ∧
      (p.Float64 i ctx).2.err = some (errMsg p.pfx ctx (p.fields.getD i.toNat ""))) ∧
    parseInt64 "12x" = (0, some "syntax") ∧
    parseFloat64 "12x" = (GoFloat.finite 0, some "syntax") := by
  have hs := StringAt_valid p i ctx h h0 hl
  refine ⟨fun hempty => ?_, fun hne e hpe => ?_, fun hne e hpe => ?_, by decide, by decide⟩
  · rw [List.getD_eq_getElem?_getD] at hempty
    constructor <;> simp [parser.Int64, parser.Float64, hs, h, hempty]
  · have h1 : p.Int64 i ctx = ((parseInt64 (p.fields.getD i.toNat "")).1,
        p.SetErr ctx (p.fields.getD i.toNat "")) := by
      rw [List.getD_eq_getElem?_getD] at hne hpe
      simp [parser.Int64, hs, h, hne, hpe]
    exact ⟨h1, by rw [h1, SetErr_of_none p ctx _ h]⟩
  · have h1 : p.Float64 i ctx = ((parseFloat64 (p.fields.getD i.toNat "")).1,
        p.SetErr ctx (p.fields.getD i.toNat "")) := by
      rw [List.getD_eq_getElem?_getD] at hne hpe
      simp [parser.Float64, hs, h, hne, hpe]
    exact ⟨h1, by rw [h1, SetErr_of_none p ctx _ h]⟩

/-- C9 witness: `pOk` at the empty field (index 2) and the malformed
field `12x` (index 1). -/
theorem claim_C9_witness :
    pOk.Int64 2 "c" = (0, pOk) ∧
    pOk.Int64 1 "c" = (0, pOk.SetErr "c" "12x") ∧
    pOk.Float64 1 "c" = (GoFloat.finite 0, pOk.SetErr "c" "12x") := by
  refine ⟨((claim_C9 pOk 2 "c" rfl (by decide) (by decide)).1 (by decide)).1, ?_, ?_⟩
  · exact ((claim_C9 pOk 1 "c" rfl (by decide) (by decide)).2.1 (by decide) "syntax"
      (by decide)).1
  · exact ((claim_C9 pOk 1 "c" rfl (by decide) (by decide)).2.2.1 (by decide) "syntax"
      (by decide)).1

set_option maxRecDepth 100000 in
/-- C10: on the call in which a parse failure occurs, `Int64` and
`Float64` return the value the underlying conversion produced together
with the latched error, not necessarily 0: a syntactically valid
20-digit integer yields the clamped boundary (the maximum or minimum
signed 64-bit value), and an out-of-range float literal yields the
conversion's overflow result (a signed infinity). -/
theorem claim_C10 (p : parser) (i : Int) (ctx : String) (h : p.err = none)
    (h0 : 0 ≤ i) (hl : i.toNat < p.fields.length)
    (hne : p.fields.getD i.toNat "" ≠ "") :
    (p.Int64 i ctx).1 = (parseInt64 (p.fields.getD i.toNat "")).1 ∧
    (p.Float64 i ctx).1 = (parseFloat64 (p.fields.getD i.toNat "")).1 ∧
    parseInt64 "99999999999999999999" = ((2 : Int) ^ 63 - 1, some "range") ∧
    parseInt64 "-99999999999999999999" = (-(2 : Int) ^ 63, some "range") ∧
    parseFloat64 bigNines = (GoFloat.inf false, some "range") ∧
    (pOk.Int64 4 "c") = ((2 : Int) ^ 63 - 1, pOk.SetErr "c" "99999999999999999999") ∧
    (pBig.Float64 0 "c").1 = GoFloat.inf false ∧
    (pBig.Float64 0 "c").2.err = some (errMsg "GPRMC" "c" bigNines) := by
  have hs := StringAt_valid p i ctx h h0 hl
  rw [List.getD_eq_getElem?_getD] at hne
  refine ⟨?_, ?_, by decide, by decide, by decide, by decide, by decide, by decide⟩
  · cases hpe : (parseInt64 (p.fields[i.toNat]?.getD "")).2 <;>
      simp [parser.Int64, hs, h, hne, hpe]
  · cases hpe : (parseFloat64 (p.fields[i.toNat]?.getD "")).2 <;>
      simp [parser.Float64, hs, h, hne, hpe]

/-- C10 witness: `pOk` at the 20-digit integer field and `pBig` at the
out-of-range float field. -/
theorem claim_C10_witness :
    (pOk.Int64 4 "c").1 = (parseInt64 "99999999999999999999").1 ∧
    (pBig.Float64 0 "c").1 = (parseFloat64 bigNines).1 :=
  ⟨(claim_C10 pOk 4 "c" rfl (by decide) (by decide) (by decide)).1,
   (claim_C10 pBig 0 "c" rfl (by decide) (by decide) (by decide)).2.1⟩

theorem utf8ByteSizeGo_ge_length (cs : List Char) : cs.length ≤ String.utf8ByteSize.go cs := by
  induction cs with
  | nil => simp [String.utf8ByteSize.go]
  | cons c t ih =>
    have := c.utf8Size_pos
    simp only [String.utf8ByteSize.go, List.length_cons]
    omega

theorem toList_length_le_utf8ByteSize (s : String) : s.toList.length ≤ s.utf8ByteSize := by
  cases s with
  | mk data => exact utf8ByteSizeGo_ge_length data

theorem filterMap_eq_map_of_length {α β : Type} (f : α → Option β) (d : β) :
    ∀ l : List α, (l.filterMap f).length = l.length →
      l.filterMap f = l.map (fun a => (f a).getD d) := by
  intro l
  induction l with
  | nil => intro _; rfl
  | cons a t ih =>
    intro h
    cases hf : f a with
    | none =>
      rw [List.filterMap_cons_none hf] at h
      have := List.length_filterMap_le f t
      simp only [List.length_cons] at h
      omega
    | some b =>
      rw [List.filterMap_cons_some hf] at h ⊢
      simp only [List.length_cons, Nat.succ.injEq] at h
      simp [List.map_cons, hf, ih h]

/-- C5 counterexample: the claim promises one matched option per
character whenever every character equals a single-character option, but
the code compares the number of matches against the Go byte length of
the field, not its character count.  On the one-character field `é`
(2 UTF-8 bytes) with exactly-matching option `é`, every character
matches, yet the call latches the enum error and returns the empty
sequence. -/
theorem claim_C5_cex :
    (∀ c ∈ "é".toList, "é" = String.singleton c) ∧
    parser.EnumChars { typ := "T", pfx := "P", fields := ["é"], err := none } 0 "mode" ["é"] =
      ([], { typ := "T", pfx := "P", fields := ["é"],
             err := some (errMsg "P" "mode" "é") }) := by
  decide

/-- C5 amended: on an error-free accessor with a non-empty field at a
valid index, `EnumChars` matches each character against the options in
order (first matching option, duplicates allowed); if the number of
matches equals the field's UTF-8 byte count (for an all-ASCII field,
its character count), it returns exactly one matched option per
character, in order; otherwise — some character matched no option, or
the field contains multi-byte characters — it latches an enum error
whose reported value is the whole field string and returns an empty
sequence. -/
theorem claim_C5 (p : parser) (i : Int) (ctx : String) (options : List String)
    (h : p.err = none) (h0 : 0 ≤ i) (hl : i.toNat < p.fields.length)
    (hne : p.fields.getD i.toNat "" ≠ "") :
    ((((p.fields.getD i.toNat "").toList.filterMap
          (fun r => options.find? (fun o => o == String.singleton r))).length =
        (p.fields.getD i.toNat "").utf8ByteSize) →
      p.EnumChars i ctx options =
        ((p.fields.getD i.toNat "").toList.map
          (fun r => (options.find? (fun o => o == String.singleton r)).getD ""), p)) ∧
    ((((p.fields.getD i.toNat "").toList.filterMap
          (fun r => options.find? (fun o => o == String.singleton r))).length ≠
        (p.fields.getD i.toNat "").utf8ByteSize) →
      p.EnumChars i ctx options = ([], p.SetErr ctx (p.fields.getD i.toNat "")) ∧
      (p.EnumChars i ctx options).2.err =
        some (errMsg p.pfx ctx (p.fields.getD i.toNat ""))) := by
  have hs := StringAt_valid p i ctx h h0 hl
  generalize hgen : p.fields.getD i.toNat "" = s at hs hne ⊢
  have hc1 : ¬(p.err ≠ none ∨ s = "") := fun hc => hc.elim (fun hh => hh h) hne
  constructor
  · intro hlen
    have hmap := filterMap_eq_map_of_length
      (fun r => options.find? (fun o => o == String.singleton r)) "" s.toList
      (by
        have h1 := List.length_filterMap_le
          (fun r => options.find? (fun o => o == String.singleton r)) s.toList
        have h2 := toList_length_le_utf8ByteSize s
        omega)
    simp only [parser.EnumChars, hs]
    rw [if_neg hc1, if_neg (fun hk => hk hlen), hmap]
  · intro hlen
    have h1 : p.EnumChars i ctx options = ([], p.SetErr ctx s) := by
      simp only [parser.EnumChars, hs]
      rw [if_neg hc1, if_pos hlen]
    exact ⟨h1, by rw [h1, SetErr_of_none p ctx _ h]⟩

/-- C5 witness: the field `ABA` with options `A`, `B` yields one matched
option per character, in order. -/
theorem claim_C5_witness :
    pOk.EnumChars 0 "mode" ["A", "B"] = (["A", "B", "A"], pOk) := by
  have := (claim_C5 pOk 0 "mode" ["A", "B"] rfl (by decide) (by decide) (by decide)).1
    (by decide)
  rw [this]
  decide

/-- Spec-side description of the decoder output, following the claim's
words: output bit k (0-based) is bit (5 - k mod 6) of the mapped 6-bit
value of payload character k div 6. -/
def armorBitsSpec (codes : List Nat) (n : Nat) : List Nat :=
  (List.range n).map (fun k => armorValue (codes.getD (k / 6) 0) >>> (5 - k % 6) &&& 1)

theorem sixBitGroup_length (d : Nat) : (sixBitGroup d).length = 6 := rfl

theorem armorFlatten_length (codes : List Nat) :
    ((codes.map (fun v => sixBitGroup (armorValue v))).flatten).length = 6 * codes.length := by
  induction codes with
  | nil => rfl
  | cons c t ih =>
    simp only [List.map_cons, List.flatten_cons, List.length_append, ih, sixBitGroup_length,
      List.length_cons]
    omega

theorem armorFlatten_getD (codes : List Nat) (k : Nat) (hk : k < 6 * codes.length) :
    ((codes.map (fun v => sixBitGroup (armorValue v))).flatten).getD k 2 =
      armorValue (codes.getD (k / 6) 0) >>> (5 - k % 6) &&& 1 := by
  induction codes generalizing k with
  | nil => simp at hk
  | cons c t ih =>
    rw [List.map_cons, List.flatten_cons]
    by_cases h6 : k < 6
    · rw [List.getD_append _ _ _ _ (by rw [sixBitGroup_length]; exact h6)]
      interval_cases k <;> rfl
    · have h6' : (sixBitGroup (armorValue c)).length ≤ k := by
        rw [sixBitGroup_length]; omega
      rw [List.getD_append_right _ _ _ _ h6', sixBitGroup_length,
        ih (k - 6) (by simp only [List.length_cons] at hk; omega)]
      have e1 : k / 6 = (k - 6) / 6 + 1 := by omega
      have e2 : k % 6 = (k - 6) % 6 := by omega
      rw [e1, e2, List.getD_cons_succ]

theorem eq_of_getD {l1 l2 : List Nat} (hlen : l1.length = l2.length)
    (h : ∀ k, k < l1.length → l1.getD k 2 = l2.getD k 2) : l1 = l2 := by
  apply List.ext_getElem hlen
  intro k h1 h2
  have hk := h k h1
  rw [List.getD_eq_getElem?_getD, List.getD_eq_getElem?_getD,
    List.getElem?_eq_getElem h1, List.getElem?_eq_getElem h2] at hk
  simpa using hk

theorem armorBitsSpec_length (codes : List Nat) (n : Nat) :
    (armorBitsSpec codes n).length = n := by
  simp [armorBitsSpec]

theorem armorBitsSpec_getD (codes : List Nat) (n k : Nat) (hk : k < n) :
    (armorBitsSpec codes n).getD k 2 =
      armorValue (codes.getD (k / 6) 0) >>> (5 - k % 6) &&& 1 := by
  unfold armorBitsSpec
  rw [List.getD_eq_getElem?_getD, List.getElem?_map, List.getElem?_range hk]
  rfl

theorem armorFlatten_take_eq (codes : List Nat) (n : Nat) (hn : n ≤ 6 * codes.length) :
    ((codes.map (fun v => sixBitGroup (armorValue v))).flatten).take n =
      armorBitsSpec codes n := by
  apply eq_of_getD
  · rw [List.length_take, armorFlatten_length, armorBitsSpec_length]; omega
  · intro k hk
    rw [List.length_take, armorFlatten_length] at hk
    have hkn : k < n := by omega
    rw [armorBitsSpec_getD codes n k hkn, List.getD_eq_getElem?_getD,
      List.getElem?_take_of_lt hkn, ← List.getD_eq_getElem?_getD,
      armorFlatten_getD codes k (by omega)]

theorem armorBitsSpec_all_le_one (codes : List Nat) (n : Nat) :
    (armorBitsSpec codes n).all (fun b => b ≤ 1) = true := by
  rw [List.all_eq_true]
  intro x hx
  obtain ⟨k, hk, rfl⟩ := List.mem_map.mp hx
  simp only [decide_eq_true_eq]
  exact Nat.and_le_right

/-- C4: on an error-free accessor, for a payload field whose characters
all lie in the armor range 48–119 and fill bits in 0–5 with a
non-negative computed bit count, `SixBitASCIIArmour` succeeds with the
state untouched and returns exactly `6 * characters - fillBits` bits,
each 0 or 1, where output bit k is bit `5 - k % 6` of the mapped value
of payload character `k / 6` — most significant bit first, truncated at
the computed length. -/
theorem claim_C4 (p : parser) (i fillBits : Int) (ctx : String) (h : p.err = none)
    (h0 : 0 ≤ i) (hl : i.toNat < p.fields.length)
    (hf0 : 0 ≤ fillBits) (hf6 : fillBits < 6)
    (hchars : ∀ c ∈ (p.fields.getD i.toNat "").toList, 48 ≤ c.toNat ∧ c.toNat < 120)
    (hnb : 0 ≤ ((p.fields.getD i.toNat "").toList.length : Int) * 6 - fillBits) :
    p.SixBitASCIIArmour i fillBits ctx =
      (some (armorBitsSpec ((p.fields.getD i.toNat "").toList.map Char.toNat)
        ((p.fields.getD i.toNat "").toList.length * 6 - fillBits.toNat)), p) ∧
    (armorBitsSpec ((p.fields.getD i.toNat "").toList.map Char.toNat)
        ((p.fields.getD i.toNat "").toList.length * 6 - fillBits.toNat)).length =
      (p.fields.getD i.toNat "").toList.length * 6 - fillBits.toNat ∧
    (armorBitsSpec ((p.fields.getD i.toNat "").toList.map Char.toNat)
        ((p.fields.getD i.toNat "").toList.length * 6 - fillBits.toNat)).all
      (fun b => b ≤ 1) = true := by
  refine ⟨?_, armorBitsSpec_length _ _, armorBitsSpec_all_le_one _ _⟩
  rw [SixBit_eval p i fillBits ctx h h0 hl hf0 hf6]
  have hlenmap : ((p.fields.getD i.toNat "").toList.map Char.toNat).length =
      (p.fields.getD i.toNat "").toList.length := List.length_map _ _
  rw [if_neg (by rw [hlenmap]; omega)]
  have hall : ((p.fields.getD i.toNat "").toList.map Char.toNat).all armorOk = true := by
    rw [List.all_eq_true]
    intro x hx
    obtain ⟨c, hc1, rfl⟩ := List.mem_map.mp hx
    have hcc := hchars c hc1
    simp only [armorOk, Bool.and_eq_true, decide_eq_true_eq]
    omega
  rw [armorDecode, if_pos hall]
  have htn : ((((p.fields.getD i.toNat "").toList.map Char.toNat).length : Int) * 6
      - fillBits).toNat = (p.fields.getD i.toNat "").toList.length * 6 - fillBits.toNat := by
    rw [hlenmap]; omega
  rw [htn]
  dsimp only
  rw [armorFlatten_take_eq _ _ (by rw [hlenmap]; omega)]

/-- C4 witness: the payload field `W` (code 87, mapped value 39, bits
100111) of `pOk` with 2 fill bits yields the four bits 1001. -/
theorem claim_C4_witness :
    pOk.SixBitASCIIArmour 5 2 "c" = (some (armorBitsSpec [87] 4), pOk) ∧
    armorBitsSpec [87] 4 = [1, 0, 0, 1] :=
  ⟨(claim_C4 pOk 5 2 "c" rfl (by decide) (by decide) (by decide) (by decide)
      (by decide) (by decide)).1, by decide⟩
